import Mathlib

/-!
Verification of the streak/activity aggregation core of the task-tracker
application (`src/app.py`).

Dates are embedded as integers counting calendar days (the successor of a
day number is the next calendar day).  A stored timestamp is a calendar day
together with a time-of-day component (`time`, with `0` standing for
midnight); the pandas accessor `.dt.date` is embedded as the projection on
the day component.
-/

namespace TaskTracker

/-- Completion status of a task record (`status` column). -/
inductive Status where
  | pending
  | completed
deriving DecidableEq, Repr

/-- A row of the task DataFrame: a timestamp (calendar day plus
time-of-day, `time = 0` meaning midnight) and a status.  The task
description plays no role in the aggregation and is omitted. -/
structure TaskRec where
  day : Int
  time : Nat
  status : Status
deriving DecidableEq, Repr

/-- `df['date'].dt.date`: the calendar-day part of a record's timestamp. -/
def dtDate (r : TaskRec) : Int := r.day

/-- The raw timestamp of a record, as grouped by
`plot_df.groupby('date')` in `create_calendar_heatmap`. -/
def rawTimestamp (r : TaskRec) : Int × Nat := (r.day, r.time)

/-- `sorted(df['date'].dt.date.unique())`: the ascending list of distinct
calendar days. -/
def uniqueSorted (l : List Int) : List Int := l.dedup.insertionSort (· ≤ ·)

/-- The body of the first loop of `calculate_stats` (`for i in range(1,
len(unique_dates))`), carrying the previous date, the running
`current_streak` counter and the running `max_streak`; returns the final
`(current_streak, max_streak)` pair. -/
def scanStep : Int → Nat → Nat → List Int → Nat × Nat
  | _, cs, mx, [] => (cs, mx)
  | prev, cs, mx, d :: rest =>
      let cs2 := if d = prev + 1 then cs + 1 else 1
      let mx2 := if mx < cs2 then cs2 else mx
      scanStep d cs2 mx2 rest

/-- The backward walk of the second loop of `calculate_stats`
(`for i in range(len(unique_dates) - 1, 0, -1)`), expressed on the
reversed date list: count while each earlier date is exactly one day
before the current one, stop at the first gap. -/
def backCount : Int → List Int → Nat
  | _, [] => 0
  | cur, p :: rest => if cur = p + 1 then 1 + backCount p rest else 0

/-- The `max_streak` computed by `calculate_stats`: the running counter is
initialised to 1 exactly when today or yesterday occurs among the unique
dates (the dead `current_streak` seed of the Python code), `max_streak`
starts at 1 when there is at least one active day, and the scan updates
the maximum at every step. -/
def max_streak_of (today : Int) (unique_dates : List Int) : Nat :=
  let current_streak0 : Nat :=
    if unique_dates ≠ [] ∧ (today ∈ unique_dates ∨ today - 1 ∈ unique_dates) then 1 else 0
  let max_streak0 : Nat := if 0 < unique_dates.length then 1 else 0
  match unique_dates with
  | [] => max_streak0
  | d0 :: rest => (scanStep d0 current_streak0 max_streak0 rest).2

/-- The `current_streak_calc` of `calculate_stats`: anchored only when the
most recent unique date is today or yesterday, in which case the backward
walk counts the trailing run starting from 1 at the anchor. -/
def current_streak_of (today : Int) (unique_dates : List Int) : Nat :=
  match unique_dates.reverse with
  | [] => 0
  | lastd :: restRev =>
      if lastd = today ∨ lastd = today - 1 then 1 + backCount lastd restRev else 0

/-- `calculate_stats(df)` of `src/app.py`, with `datetime.date.today()`
passed explicitly (held constant for the whole invocation).  Returns
`(total_completed, tasks_last_week, total_active_days, max_streak,
current_streak)`. -/
def calculate_stats (today : Int) (df : List TaskRec) : Nat × Nat × Nat × Nat × Nat :=
  if df = [] then (0, 0, 0, 0, 0)
  else
    let completed_df := df.filter fun r => decide (r.status = Status.completed)
    let unique_dates := uniqueSorted (df.map dtDate)
    let total_active_days := unique_dates.length
    let one_week_ago := today - 7
    let tasks_last_week := (completed_df.filter fun r => decide (one_week_ago < dtDate r)).length
    if unique_dates = [] then (completed_df.length, tasks_last_week, 0, 0, 0)
    else
      (completed_df.length, tasks_last_week, total_active_days,
        max_streak_of today unique_dates, current_streak_of today unique_dates)

/-- `categorize_counts` of `create_calendar_heatmap`: the fixed
breakpoint table mapping a day's raw count to an intensity bucket. -/
def categorize_counts (count : Nat) : Nat :=
  if count = 0 then 0
  else if 1 ≤ count ∧ count ≤ 2 then 1
  else if 3 ≤ count ∧ count ≤ 5 then 2
  else if 6 ≤ count ∧ count ≤ 8 then 3
  else 4

/-- `pd.date_range(start, end, freq='D')`: every calendar day from
`start` to `stop` inclusive (empty when `stop < start`). -/
def date_range (start stop : Int) : List Int :=
  (List.range (stop - start + 1).toNat).map fun (i : Nat) => start + (i : Int)

/-- The size of the group of records whose *raw timestamp* equals `ts`,
as produced by `plot_df.groupby('date').size()` (which groups by the full
timestamp, not the calendar day) evaluated at label `ts`; `0` when no
record carries that exact timestamp, matching `fill_value=0` of the
reindex. -/
def groupSizeAt (df : List TaskRec) (ts : Int × Nat) : Nat :=
  (df.filter fun r => rawTimestamp r == ts).length

/-- `daily_counts` of `create_calendar_heatmap`: the groupby-by-timestamp
sizes reindexed over the midnight timestamps of every day from
`today - 53 weeks` to `today`.  A day's value is the size of the group
labelled by its midnight timestamp (groups at non-midnight timestamps are
dropped by the reindex). -/
def daily_counts (today : Int) (df : List TaskRec) : List (Int × Nat) :=
  (date_range (today - 53 * 7) today).map fun d => (d, groupSizeAt df (d, 0))

/-- The per-day intensity buckets of the heatmap: `categorize_counts`
applied to every day's raw count. -/
def categorized_grid (today : Int) (df : List TaskRec) : List (Int × Nat) :=
  (daily_counts today df).map fun p => (p.1, categorize_counts p.2)

/-- `create_calendar_heatmap`: on an empty DataFrame it returns a bare
"no data" figure (modelled as `none`); otherwise it builds the dense
per-day bucket grid. -/
def create_calendar_heatmap (today : Int) (df : List TaskRec) :
    Option (List (Int × Nat)) :=
  if df = [] then none else some (categorized_grid today df)

/-- A raw record as read from the CSV before date parsing: `rawDay = none`
stands for a malformed or unparseable date cell. -/
structure RawRec where
  rawDay : Option Int
  time : Nat
  status : Status
deriving DecidableEq, Repr

/-- The data-integrity error condition of the aggregator boundary. -/
inductive InvalidRecord where
  | invalid
deriving DecidableEq, Repr

/-- Modelled from the spec: the fail-fast contract of the aggregation
boundary on malformed dates.  In `src/app.py` the date parsing happens
inside the pandas CSV loader (`pd.read_csv(..., parse_dates=['date'])`)
and the `.dt` accessor, not in repository code, so the `InvalidRecord`
condition of the spec ("fails fast rather than silently skipping") is
modelled here: if every record's date parsed, the statistics are computed
over all records; if any record's date failed to parse, the whole
invocation reports `InvalidRecord` and no statistics tuple is produced. -/
def calculate_stats_checked (today : Int) (df : List RawRec) :
    Except InvalidRecord (Nat × Nat × Nat × Nat × Nat) :=
  if df.all fun r => r.rawDay.isSome then
    Except.ok (calculate_stats today
      (df.filterMap fun r => r.rawDay.map fun d => ⟨d, r.time, r.status⟩))
  else Except.error InvalidRecord.invalid

/-- The length of the trailing run of a date list: 1 for the final date
plus one for every backward step in which the previous date is exactly one
calendar day earlier, stopping at the first gap. -/
def trailLen (l : List Int) : Nat :=
  match l.reverse with
  | [] => 0
  | m :: r => 1 + backCount m r

/-- The length of the run of consecutive calendar days of the set `s`
ending at `d`: walking backward one day at a time, `d, d-1, d-2, ...` are
counted for as long as they belong to `s`; the fuel bounds the walk (the
number of active days always suffices, since the days of a run are
distinct members of `s`). -/
def consecRun (s : Finset Int) : Int → Nat → Nat
  | _, 0 => 0
  | d, n + 1 => if d ∈ s then consecRun s (d - 1) n + 1 else 0

/-! ### Claim theorems -/

/-- Claim C3: on empty input, `calculate_stats` returns the all-zero
5-tuple `(0, 0, 0, 0, 0)` as a defined result, not an error. -/
theorem c3_empty_input (today : Int) : calculate_stats today [] = (0, 0, 0, 0, 0) := rfl

/-- Claim C1 (bug demonstration): for the dates `{D, D+1, D+2}` with
`D = today - 10` (so no date is today or yesterday), `calculate_stats`
returns `max_streak = 2`, not the 3 required by the claim: the scan's run
counter is seeded with the anchoring condition (0 here) instead of 1, so
the first run is undercounted.  With the same three consecutive dates
ending at today (anchored, seed 1) the scan does return `max_streak = 3`. -/
theorem c1_max_streak_unanchored_bug :
    calculate_stats 100 [⟨90, 0, Status.completed⟩, ⟨91, 0, Status.completed⟩,
        ⟨92, 0, Status.completed⟩] = (3, 0, 3, 2, 0) ∧
    calculate_stats 100 [⟨98, 0, Status.completed⟩, ⟨99, 0, Status.completed⟩,
        ⟨100, 0, Status.completed⟩] = (3, 3, 3, 3, 3) := by decide

/-- Claim C4 (bug demonstration): two records on the same calendar day 0,
one captured at midnight and one with a non-midnight time-of-day, are
grouped together by `calculate_stats` (one unique date, so
`total_active_days = 1`), but *not* by the heatmap's per-day counting:
`groupby('date')` groups by the full timestamp, so the reindex over
midnight labels keeps only the midnight record and the day's raw count is
1 instead of 2. -/
theorem c4_heatmap_time_not_discarded :
    (calculate_stats 0 [⟨0, 0, Status.completed⟩, ⟨0, 5, Status.completed⟩]).2.2.1 = 1 ∧
    groupSizeAt [⟨0, 0, Status.completed⟩, ⟨0, 5, Status.completed⟩] (0, 0) = 1 ∧
    (0, 1) ∈ daily_counts 0 [⟨0, 0, Status.completed⟩, ⟨0, 5, Status.completed⟩] ∧
    (daily_counts 0 [⟨0, 0, Status.completed⟩]).getLast?
      = (daily_counts 0 [⟨0, 0, Status.completed⟩, ⟨0, 5, Status.completed⟩]).getLast? := by
  decide

/-- Claim C5: `categorize_counts` realises the fixed breakpoint table
`0 → 0`, `1–2 → 1`, `3–5 → 2`, `6–8 → 3`, `≥9 → 4`; in particular the raw
counts `[0,1,2,3,5,6,8,9,100]` map to the buckets `[0,1,1,2,2,3,3,4,4]`. -/
theorem c5_bucket_table (n : Nat) :
    (n = 0 → categorize_counts n = 0) ∧
    (1 ≤ n ∧ n ≤ 2 → categorize_counts n = 1) ∧
    (3 ≤ n ∧ n ≤ 5 → categorize_counts n = 2) ∧
    (6 ≤ n ∧ n ≤ 8 → categorize_counts n = 3) ∧
    (9 ≤ n → categorize_counts n = 4) ∧
    [0, 1, 2, 3, 5, 6, 8, 9, 100].map categorize_counts = [0, 1, 1, 2, 2, 3, 3, 4, 4] := by
  refine ⟨fun h => ?_, fun h => ?_, fun h => ?_, fun h => ?_, fun h => ?_, by decide⟩ <;>
    · unfold categorize_counts
      split_ifs <;> omega

/-- Witness for C5 at concrete raw counts. -/
theorem c5_bucket_table_witness :
    categorize_counts 2 = 1 ∧ categorize_counts 9 = 4 :=
  ⟨(c5_bucket_table 2).2.1 (by decide), (c5_bucket_table 9).2.2.2.2.1 (by decide)⟩

/-- Claim C7: the `completions_last_7_days` component equals the number of
records that are completed and dated strictly later than `today - 7`
(so a completed record dated exactly `today - 7` is excluded, and pending
records are never counted). -/
theorem c7_completions_last_week (today : Int) (df : List TaskRec) :
    (calculate_stats today df).2.1
      = (df.filter fun r =>
          decide (r.status = Status.completed ∧ today - 7 < dtDate r)).length := by
  by_cases hdf : df = []
  · subst hdf; simp [calculate_stats]
  · by_cases h2 : uniqueSorted (List.map dtDate df) = [] <;>
      simp [calculate_stats, hdf, h2, List.filter_filter, Bool.decide_and, Bool.and_comm]

/-- Every intensity bucket produced by the breakpoint table is at most 4. -/
theorem categorize_counts_le_four (n : Nat) : categorize_counts n ≤ 4 := by
  unfold categorize_counts
  split_ifs <;> omega

/-- Membership in the inclusive day range enumerated by the heatmap. -/
theorem mem_date_range (a b d : Int) : d ∈ date_range a b ↔ a ≤ d ∧ d ≤ b := by
  simp only [date_range, List.mem_map, List.mem_range]
  constructor
  · rintro ⟨i, hi, rfl⟩
    omega
  · rintro ⟨h1, h2⟩
    exact ⟨(d - a).toNat, by omega, by omega⟩

/-- Claim C6: for a non-empty record collection the heatmap builds a
grid covering every calendar day from `today - 53*7` through `today`
inclusive — exactly `53*7 + 1 = 372` day entries, each with a bucket in
`{0, 1, 2, 3, 4}` — regardless of which days carry data. -/
theorem c6_grid_coverage (today : Int) (df : List TaskRec) (h : df ≠ []) :
    ∃ g, create_calendar_heatmap today df = some g ∧
      g.length = 53 * 7 + 1 ∧
      (∀ p ∈ g, p.2 ≤ 4) ∧
      (∀ d : Int, d ∈ g.map Prod.fst ↔ today - 53 * 7 ≤ d ∧ d ≤ today) := by
  refine ⟨categorized_grid today df, ?_, ?_, ?_, ?_⟩
  · simp [create_calendar_heatmap, h]
  · simp only [categorized_grid, daily_counts, date_range, List.length_map,
      List.length_range]
    omega
  · intro p hp
    simp only [categorized_grid, List.mem_map] at hp
    obtain ⟨q, _, rfl⟩ := hp
    exact categorize_counts_le_four q.2
  · intro d
    have hmap : (categorized_grid today df).map Prod.fst
        = date_range (today - 53 * 7) today := by
      simp only [categorized_grid, daily_counts, List.map_map]
      exact List.map_id _
    rw [hmap, mem_date_range]

/-- Witness for C6 on a one-record collection with `today = 0`. -/
theorem c6_grid_coverage_witness :
    ∃ g, create_calendar_heatmap 0 [⟨0, 0, Status.completed⟩] = some g ∧
      g.length = 53 * 7 + 1 ∧
      (∀ p ∈ g, p.2 ≤ 4) ∧
      (∀ d : Int, d ∈ g.map Prod.fst ↔ 0 - 53 * 7 ≤ d ∧ d ≤ 0) :=
  c6_grid_coverage 0 [⟨0, 0, Status.completed⟩] (by decide)

/-- Claim C8: a record with a malformed (unparseable) date makes the
aggregation boundary report `InvalidRecord`; it never returns a
statistics tuple computed from a subset of the records. -/
theorem c8_invalid_record_fail_fast (today : Int) (df : List RawRec)
    (r : RawRec) (hmem : r ∈ df) (hbad : r.rawDay = none) :
    calculate_stats_checked today df = Except.error InvalidRecord.invalid ∧
    ∀ res, calculate_stats_checked today df ≠ Except.ok res := by
  have hall : ¬ df.all (fun r => r.rawDay.isSome) = true := by
    simp only [List.all_eq_true]
    intro hforall
    have := hforall r hmem
    rw [hbad] at this
    simp at this
  constructor
  · simp [calculate_stats_checked, hall]
  · intro res
    simp [calculate_stats_checked, hall]

/-- Witness for C8: a two-record input whose second record has an
unparseable date is rejected whole. -/
theorem c8_invalid_record_fail_fast_witness :
    calculate_stats_checked 0 [⟨some 0, 0, Status.completed⟩, ⟨none, 0, Status.pending⟩]
        = Except.error InvalidRecord.invalid ∧
    ∀ res, calculate_stats_checked 0
        [⟨some 0, 0, Status.completed⟩, ⟨none, 0, Status.pending⟩] ≠ Except.ok res :=
  c8_invalid_record_fail_fast 0 _ ⟨none, 0, Status.pending⟩ (by decide) (by decide)

/-- Claim C9: `calculate_stats` is insensitive to the order of its input:
permuted record collections, evaluated at the same `today`, produce the
same 5-tuple (the embedding is a pure function, so the input is never
mutated). -/
theorem c9_permutation_invariant (today : Int) (l1 l2 : List TaskRec)
    (h : l1.Perm l2) : calculate_stats today l1 = calculate_stats today l2 := by
  by_cases h1 : l1 = []
  · subst h1
    rw [h.nil_eq]
  · have h2 : l2 ≠ [] := by
      intro h2
      subst h2
      exact h1 h.eq_nil
    have hperm : List.Perm (uniqueSorted (l1.map dtDate)) (uniqueSorted (l2.map dtDate)) :=
      ((List.perm_insertionSort _ _).trans ((h.map dtDate).dedup)).trans
        (List.perm_insertionSort _ _).symm
    have hus : uniqueSorted (l1.map dtDate) = uniqueSorted (l2.map dtDate) :=
      List.eq_of_perm_of_sorted hperm
        (List.sorted_insertionSort _ _) (List.sorted_insertionSort _ _)
    have hcomp : List.Perm
        (l1.filter fun r => decide (r.status = Status.completed))
        (l2.filter fun r => decide (r.status = Status.completed)) := h.filter _
    have hlen1 := hcomp.length_eq
    have hlen2 := (hcomp.filter (fun r => decide (today - 7 < dtDate r))).length_eq
    simp only [calculate_stats, if_neg h1, if_neg h2, hus, hlen1, hlen2]

/-- Witness for C9 on a concrete transposition. -/
theorem c9_permutation_invariant_witness :
    calculate_stats 7 [⟨7, 0, Status.completed⟩, ⟨5, 0, Status.pending⟩]
      = calculate_stats 7 [⟨5, 0, Status.pending⟩, ⟨7, 0, Status.completed⟩] :=
  c9_permutation_invariant 7 _ _ (by decide)

/-! ### Structure of the sorted unique date list -/

/-- `uniqueSorted l` is a permutation of `l.dedup`. -/
theorem uniqueSorted_perm_dedup (l : List Int) :
    List.Perm (uniqueSorted l) l.dedup :=
  List.perm_insertionSort _ _

/-- Membership in the sorted unique date list. -/
theorem mem_uniqueSorted {a : Int} {l : List Int} :
    a ∈ uniqueSorted l ↔ a ∈ l := by
  rw [(uniqueSorted_perm_dedup l).mem_iff, List.mem_dedup]

/-- A nonempty date list has a nonempty sorted unique list. -/
theorem uniqueSorted_ne_nil {l : List Int} (h : l ≠ []) : uniqueSorted l ≠ [] := by
  obtain ⟨a, l', rfl⟩ := List.exists_cons_of_ne_nil h
  intro hnil
  have ha : a ∈ uniqueSorted (a :: l') := mem_uniqueSorted.mpr (List.mem_cons_self a l')
  rw [hnil] at ha
  exact (List.not_mem_nil a) ha

/-- The sorted unique date list is strictly increasing. -/
theorem uniqueSorted_sorted_lt (l : List Int) :
    (uniqueSorted l).Sorted (· < ·) := by
  have hnodup : (uniqueSorted l).Nodup :=
    (uniqueSorted_perm_dedup l).nodup_iff.mpr (List.nodup_dedup l)
  have hle : (uniqueSorted l).Sorted (· ≤ ·) := List.sorted_insertionSort _ _
  exact hle.lt_of_le hnodup

/-- The sorted unique date list carries the same set of days as the input. -/
theorem toFinset_uniqueSorted (l : List Int) :
    (uniqueSorted l).toFinset = l.toFinset := by
  have h1 : (uniqueSorted l).toFinset = l.dedup.toFinset :=
    List.toFinset_eq_of_perm _ _ (uniqueSorted_perm_dedup l)
  rw [h1]
  exact List.toFinset.ext fun x => List.mem_dedup

/-- On nonempty input, `calculate_stats` takes its main branch. -/
theorem calculate_stats_eq (today : Int) (df : List TaskRec) (h : df ≠ []) :
    calculate_stats today df =
      ((df.filter fun r => decide (r.status = Status.completed)).length,
       ((df.filter fun r => decide (r.status = Status.completed)).filter
           fun r => decide (today - 7 < dtDate r)).length,
       (uniqueSorted (df.map dtDate)).length,
       max_streak_of today (uniqueSorted (df.map dtDate)),
       current_streak_of today (uniqueSorted (df.map dtDate))) := by
  have hds : uniqueSorted (df.map dtDate) ≠ [] := by
    apply uniqueSorted_ne_nil
    simpa using h
  simp [calculate_stats, h, hds]

/-! ### Behaviour of the forward scan -/

/-- The running maximum of the scan never decreases. -/
theorem scanStep_le_snd (rest : List Int) : ∀ (prev : Int) (cs mx : Nat),
    mx ≤ (scanStep prev cs mx rest).2 := by
  induction rest with
  | nil => intro prev cs mx; exact Nat.le_refl mx
  | cons d rest ih =>
      intro prev cs mx
      simp only [scanStep]
      refine Nat.le_trans ?_ (ih d _ _)
      split_ifs <;> omega

/-- After the scan the run counter is bounded by the maximum, provided it
was so initially. -/
theorem scanStep_fst_le_snd (rest : List Int) : ∀ (prev : Int) (cs mx : Nat),
    cs ≤ mx → (scanStep prev cs mx rest).1 ≤ (scanStep prev cs mx rest).2 := by
  induction rest with
  | nil => intro prev cs mx h; exact h
  | cons d rest ih =>
      intro prev cs mx h
      simp only [scanStep]
      apply ih
      split_ifs <;> omega

/-- The maximum produced by the scan is bounded by a common bound on the
initial counter and maximum plus the number of scanned dates. -/
theorem scanStep_snd_le (rest : List Int) : ∀ (prev : Int) (cs mx c : Nat),
    cs ≤ c → mx ≤ c → (scanStep prev cs mx rest).2 ≤ c + rest.length := by
  induction rest with
  | nil =>
      intro prev cs mx c _ h2
      simpa [scanStep] using h2
  | cons d rest ih =>
      intro prev cs mx c h1 h2
      simp only [scanStep, List.length_cons]
      generalize hc : (if d = prev + 1 then cs + 1 else 1) = cs2
      generalize hm : (if mx < cs2 then cs2 else mx) = mx2
      have hcs2 : cs2 ≤ c + 1 := by split at hc <;> omega
      have hmx2 : mx2 ≤ c + 1 := by split at hm <;> omega
      have hrec := ih d cs2 mx2 (c + 1) hcs2 hmx2
      omega

/-- Effect of one more date at the right end of the scan: the final run
counter extends by one if the new date continues the run, else resets. -/
theorem scanStep_fst_append (xs : List Int) : ∀ (prev : Int) (cs mx : Nat) (d : Int),
    (scanStep prev cs mx (xs ++ [d])).1
      = if d = xs.getLastD prev + 1 then (scanStep prev cs mx xs).1 + 1 else 1 := by
  induction xs with
  | nil =>
      intro prev cs mx d
      simp [scanStep, List.getLastD]
  | cons x xs ih =>
      intro prev cs mx d
      simp only [List.cons_append, scanStep, List.getLastD_cons]
      exact ih x _ _ d

/-- Unfolding the trailing-run length through a known reversal. -/
theorem trailLen_of_reverse {l : List Int} {m : Int} {r : List Int}
    (h : l.reverse = m :: r) : trailLen l = 1 + backCount m r := by
  simp [trailLen, h]

/-- Effect of one more date at the right end on the trailing run. -/
theorem trailLen_append_singleton (prev : Int) (xs : List Int) (d : Int) :
    trailLen ((prev :: xs) ++ [d])
      = if d = xs.getLastD prev + 1 then trailLen (prev :: xs) + 1 else 1 := by
  obtain ⟨m, r, hmr⟩ : ∃ m r, (prev :: xs).reverse = m :: r := by
    cases h : (prev :: xs).reverse with
    | nil => exact absurd (List.reverse_eq_nil_iff.mp h) (List.cons_ne_nil _ _)
    | cons m r => exact ⟨m, r, rfl⟩
  have hes : prev :: xs = r.reverse ++ [m] := by
    have h2 := congrArg List.reverse hmr
    simpa using h2
  have hm : xs.getLastD prev = m := by
    have h0 : xs.getLastD prev = (prev :: xs).getLastD prev :=
      (List.getLastD_cons _ _ _).symm
    rw [h0, hes, List.getLastD_concat]
  have hrev : ((prev :: xs) ++ [d]).reverse = d :: m :: r := by
    rw [List.reverse_append, hmr]
    rfl
  rw [trailLen_of_reverse hrev, trailLen_of_reverse hmr, hm]
  by_cases hd : d = m + 1
  · simp [backCount, hd]
    omega
  · simp [backCount, hd]

/-- With the run counter seeded at 1, the forward scan's final counter is
exactly the trailing-run length of the whole date list. -/
theorem scanStep_fst_eq_trail (xs : List Int) : ∀ (prev : Int) (mx : Nat),
    (scanStep prev 1 mx xs).1 = trailLen (prev :: xs) := by
  induction xs using List.reverseRecOn with
  | nil =>
      intro prev mx
      simp [scanStep, trailLen, backCount]
  | append_singleton xs d ih =>
      intro prev mx
      rw [← List.cons_append, trailLen_append_singleton, scanStep_fst_append, ih prev mx]

/-! ### The backward walk as a set-membership run -/

/-- One-step unfolding of the membership walk. -/
theorem consecRun_succ (s : Finset Int) (d : Int) (n : Nat) :
    consecRun s d (n + 1) = if d ∈ s then consecRun s (d - 1) n + 1 else 0 := rfl

/-- `consecRun` only inspects membership at or below its starting day. -/
theorem consecRun_congr (n : Nat) : ∀ (s t : Finset Int) (d : Int),
    (∀ x : Int, x ≤ d → (x ∈ s ↔ x ∈ t)) → consecRun s d n = consecRun t d n := by
  induction n with
  | zero => intro s t d _; rfl
  | succ n ih =>
      intro s t d h
      simp only [consecRun]
      rw [ih s t (d - 1) fun x hx => h x (by omega)]
      by_cases hd : d ∈ s
      · rw [if_pos hd, if_pos ((h d (le_refl d)).mp hd)]
      · rw [if_neg hd, if_neg (fun hc => hd ((h d (le_refl d)).mpr hc))]

/-- On a strictly decreasing list (the reversed sorted unique dates), the
backward positional walk computes exactly the membership-based run length
ending at the most recent day. -/
theorem backCount_eq_consecRun (r : List Int) : ∀ (m : Int),
    (m :: r).Pairwise (· > ·) →
      1 + backCount m r = consecRun (m :: r).toFinset m (r.length + 1) := by
  induction r with
  | nil =>
      intro m _
      simp [backCount, consecRun]
  | cons p r ih =>
      intro m h
      have hmp : m > p := (List.pairwise_cons.mp h).1 p (List.mem_cons_self p r)
      have hmr : ∀ x ∈ r, m > x := fun x hx =>
        (List.pairwise_cons.mp h).1 x (List.mem_cons_of_mem p hx)
      have hpr : (p :: r).Pairwise (· > ·) := (List.pairwise_cons.mp h).2
      have hprx : ∀ x ∈ r, p > x := (List.pairwise_cons.mp hpr).1
      have hmem : m ∈ (m :: p :: r).toFinset := by simp
      by_cases hd : m = p + 1
      · have hm1 : m - 1 = p := by omega
        have hcongr : consecRun (m :: p :: r).toFinset (m - 1) (r.length + 1)
            = consecRun (p :: r).toFinset (m - 1) (r.length + 1) := by
          apply consecRun_congr
          intro x hx
          simp only [List.toFinset_cons, Finset.mem_insert]
          constructor
          · rintro (rfl | hx2)
            · omega
            · exact hx2
          · intro hx2
            exact Or.inr hx2
        have hrec := ih p hpr
        simp only [List.length_cons]
        rw [consecRun_succ, if_pos hmem, hcongr, hm1, ← hrec]
        simp only [backCount, if_pos hd]
        omega
      · have hnot : m - 1 ∉ (m :: p :: r).toFinset := by
          simp only [List.toFinset_cons, Finset.mem_insert, List.mem_toFinset]
          rintro (h1 | h1 | h1)
          · omega
          · omega
          · exact absurd (hprx _ h1) (by omega)
        simp only [List.length_cons]
        rw [consecRun_succ, if_pos hmem, consecRun_succ, if_neg hnot]
        simp [backCount, hd]

/-! ### The two streak components on nonempty date lists -/

/-- The `max_streak` scan on a nonempty unique date list, in closed form. -/
theorem max_streak_of_cons (today d0 : Int) (rest : List Int) :
    max_streak_of today (d0 :: rest)
      = (scanStep d0
          (if today ∈ d0 :: rest ∨ today - 1 ∈ d0 :: rest then 1 else 0) 1 rest).2 := by
  simp [max_streak_of]

/-- Claim C2: the current streak is 0 whenever the most recent active date
is `today - 2` or earlier; and when the most recent active date is today
or yesterday, the current streak equals the length of the trailing run of
consecutive calendar days of the active-day set ending at that date
(anchor counted as 1, walk stopped at the first gap). -/
theorem c2_current_streak_anchor (today : Int) (df : List TaskRec) (hdf : df ≠ [])
    (m : Int) (hm : (uniqueSorted (df.map dtDate)).getLast? = some m) :
    (m ≤ today - 2 → (calculate_stats today df).2.2.2.2 = 0) ∧
    ((m = today ∨ m = today - 1) →
      (calculate_stats today df).2.2.2.2
        = consecRun (df.map dtDate).toFinset m (uniqueSorted (df.map dtDate)).length) := by
  have hfifth : (calculate_stats today df).2.2.2.2
      = current_streak_of today (uniqueSorted (df.map dtDate)) := by
    rw [calculate_stats_eq today df hdf]
  obtain ⟨r, hrev⟩ : ∃ r, (uniqueSorted (df.map dtDate)).reverse = m :: r := by
    cases h : (uniqueSorted (df.map dtDate)).reverse with
    | nil =>
        rw [← List.head?_reverse, h] at hm
        exact absurd hm (by simp)
    | cons m2 r =>
        rw [← List.head?_reverse, h] at hm
        simp only [List.head?_cons, Option.some.injEq] at hm
        exact ⟨r, by rw [hm]⟩
  have hcs : current_streak_of today (uniqueSorted (df.map dtDate))
      = if m = today ∨ m = today - 1 then 1 + backCount m r else 0 := by
    simp [current_streak_of, hrev]
  constructor
  · intro hold
    rw [hfifth, hcs, if_neg]
    rintro (rfl | rfl) <;> omega
  · intro hanch
    rw [hfifth, hcs, if_pos hanch]
    have hpw : (m :: r).Pairwise (· > ·) := by
      rw [← hrev, List.pairwise_reverse]
      exact uniqueSorted_sorted_lt (df.map dtDate)
    rw [backCount_eq_consecRun r m hpw]
    have hfin : (m :: r).toFinset = (df.map dtDate).toFinset := by
      rw [← hrev, List.toFinset_reverse, toFinset_uniqueSorted]
    have hlen : r.length + 1 = (uniqueSorted (df.map dtDate)).length := by
      have h2 := congrArg List.length hrev
      simp only [List.length_reverse, List.length_cons] at h2
      omega
    rw [hfin, hlen]

/-- Witness for C2: three records, the most recent dated today, with a gap
before the trailing two-day run. -/
theorem c2_current_streak_anchor_witness :
    ((10 : Int) ≤ 10 - 2 →
      (calculate_stats 10 [⟨9, 0, Status.completed⟩, ⟨10, 0, Status.completed⟩,
          ⟨5, 0, Status.pending⟩]).2.2.2.2 = 0) ∧
    (((10 : Int) = 10 ∨ (10 : Int) = 10 - 1) →
      (calculate_stats 10 [⟨9, 0, Status.completed⟩, ⟨10, 0, Status.completed⟩,
          ⟨5, 0, Status.pending⟩]).2.2.2.2
        = consecRun
            ([⟨9, 0, Status.completed⟩, ⟨10, 0, Status.completed⟩,
              ⟨5, 0, Status.pending⟩].map dtDate).toFinset 10
            (uniqueSorted ([⟨9, 0, Status.completed⟩, ⟨10, 0, Status.completed⟩,
              ⟨5, 0, Status.pending⟩].map dtDate)).length) :=
  c2_current_streak_anchor 10
    [⟨9, 0, Status.completed⟩, ⟨10, 0, Status.completed⟩, ⟨5, 0, Status.pending⟩]
    (by decide) 10 (by decide)

/-- Claim C10: the returned tuple always satisfies
`current_streak ≤ max_streak ≤ total_active_days`, and on nonempty input
`max_streak ≥ 1` and `total_active_days ≥ 1`; this holds on every code
path, including the unanchored one where the current streak is 0. -/
theorem c10_streak_chain (today : Int) (df : List TaskRec) :
    ((calculate_stats today df).2.2.2.2 ≤ (calculate_stats today df).2.2.2.1 ∧
     (calculate_stats today df).2.2.2.1 ≤ (calculate_stats today df).2.2.1) ∧
    (df ≠ [] →
      1 ≤ (calculate_stats today df).2.2.2.1 ∧ 1 ≤ (calculate_stats today df).2.2.1) := by
  by_cases hdf : df = []
  · subst hdf
    refine ⟨⟨Nat.le_refl 0, Nat.le_refl 0⟩, fun h => absurd rfl h⟩
  · rw [calculate_stats_eq today df hdf]
    have hds : uniqueSorted (df.map dtDate) ≠ [] := by
      apply uniqueSorted_ne_nil
      simpa using hdf
    obtain ⟨d0, rest, hcons⟩ := List.exists_cons_of_ne_nil hds
    rw [hcons]
    simp only [max_streak_of_cons, List.length_cons]
    set i0 : Nat := if today ∈ d0 :: rest ∨ today - 1 ∈ d0 :: rest then 1 else 0 with hi0
    have hms_ge : 1 ≤ (scanStep d0 i0 1 rest).2 := scanStep_le_snd rest d0 i0 1
    have hms_le : (scanStep d0 i0 1 rest).2 ≤ rest.length + 1 := by
      have h1 : i0 ≤ 1 := by rw [hi0]; split <;> omega
      have h2 := scanStep_snd_le rest d0 i0 1 1 h1 (Nat.le_refl 1)
      omega
    refine ⟨⟨?_, hms_le⟩, fun _ => ⟨hms_ge, by omega⟩⟩
    obtain ⟨m, r, hrev⟩ : ∃ m r, (d0 :: rest).reverse = m :: r := by
      cases h : (d0 :: rest).reverse with
      | nil => exact absurd (List.reverse_eq_nil_iff.mp h) (List.cons_ne_nil _ _)
      | cons m r => exact ⟨m, r, rfl⟩
    have hcs : current_streak_of today (d0 :: rest)
        = if m = today ∨ m = today - 1 then 1 + backCount m r else 0 := by
      simp [current_streak_of, hrev]
    rw [hcs]
    by_cases hanch : m = today ∨ m = today - 1
    · rw [if_pos hanch]
      have hmmem : m ∈ d0 :: rest := by
        rw [← List.mem_reverse, hrev]
        exact List.mem_cons_self m r
      have hi0one : i0 = 1 := by
        rw [hi0, if_pos]
        rcases hanch with rfl | rfl
        · exact Or.inl hmmem
        · exact Or.inr hmmem
      have htrail : (scanStep d0 1 1 rest).1 = 1 + backCount m r := by
        rw [scanStep_fst_eq_trail rest d0 1, trailLen_of_reverse hrev]
      rw [hi0one, ← htrail]
      exact scanStep_fst_le_snd rest d0 1 1 (Nat.le_refl 1)
    · rw [if_neg hanch]
      exact Nat.zero_le _

/-- Witness for C10 on a nonempty input. -/
theorem c10_streak_chain_witness :
    (((calculate_stats 3 [⟨1, 0, Status.completed⟩, ⟨3, 0, Status.pending⟩]).2.2.2.2
        ≤ (calculate_stats 3 [⟨1, 0, Status.completed⟩, ⟨3, 0, Status.pending⟩]).2.2.2.1 ∧
      (calculate_stats 3 [⟨1, 0, Status.completed⟩, ⟨3, 0, Status.pending⟩]).2.2.2.1
        ≤ (calculate_stats 3 [⟨1, 0, Status.completed⟩, ⟨3, 0, Status.pending⟩]).2.2.1) ∧
     ([⟨1, 0, Status.completed⟩, ⟨3, 0, Status.pending⟩] ≠ ([] : List TaskRec) →
       1 ≤ (calculate_stats 3 [⟨1, 0, Status.completed⟩, ⟨3, 0, Status.pending⟩]).2.2.2.1 ∧
       1 ≤ (calculate_stats 3 [⟨1, 0, Status.completed⟩, ⟨3, 0, Status.pending⟩]).2.2.1)) :=
  c10_streak_chain 3 [⟨1, 0, Status.completed⟩, ⟨3, 0, Status.pending⟩]

end TaskTracker
